import Mathlib

/-!
Shallow embedding of `src/converter.py` (text-dump → PDF recovery tool).

Python `bytes` values are modelled as `List Nat` (one entry per octet);
Python `str` values are also `List Nat` (one entry per code point — all
text handled by the program is in the Latin-1 range, where `bytes.decode
("latin-1")` is the identity on codes 0–255).

Python regex facts used by the model:
* In `str` patterns, `\s` matches, within the Latin-1 range, exactly the
  code points 9–13, 28–31, 32, 133 and 160; `str.strip()` strips the same
  set.  In `bytes` patterns (`rb"..."`), `\s` matches only 9–13 and 32.
* `\d` matches only 48–57 within the Latin-1 range, in both modes.
-/

namespace Converter

/-- Whitespace for `str`-mode regexes and `str.strip()` (Latin-1 range). -/
def isSpaceU (c : Nat) : Bool :=
  (9 ≤ c && c ≤ 13) || (28 ≤ c && c ≤ 32) || c == 133 || c == 160

/-- Whitespace for `bytes`-mode regexes (`rb"\s"`). -/
def isSpaceB (c : Nat) : Bool := (9 ≤ c && c ≤ 13) || c == 32

/-- ASCII decimal digit (regex `\d`). -/
def isDigit (c : Nat) : Bool := 48 ≤ c && c ≤ 57

/-- Membership in `HEX_CHARS = set("0123456789abcdefABCDEF")`. -/
def isHexChar (c : Nat) : Bool :=
  (48 ≤ c && c ≤ 57) || (97 ≤ c && c ≤ 102) || (65 ≤ c && c ≤ 70)

/-- `str.lower()` restricted to the Latin-1 range (ASCII A–Z and À–Þ
except × gain 32). -/
def pyLower (c : Nat) : Nat :=
  if (65 ≤ c && c ≤ 90) || (192 ≤ c && c ≤ 222 && c ≠ 215) then c + 32 else c

/-- `str.strip()`: drop whitespace from both ends. -/
def stripWs (s : List Nat) : List Nat :=
  ((s.dropWhile isSpaceU).reverse.dropWhile isSpaceU).reverse

/-- `re.sub(r"\s+", "", s)`: remove every whitespace character. -/
def removeWs (s : List Nat) : List Nat := s.filter (fun c => !isSpaceU c)

/-- `s1.startswith(s2)` on strings/bytes. -/
def startsWith (p s : List Nat) : Bool := decide (s.take p.length = p)

/-- Occurrence test: `pat` occurs in `b` at index `i`. -/
def subAt (pat b : List Nat) (i : Nat) : Bool :=
  decide ((b.drop i).take pat.length = pat)

/-- Search engine for `bytes.rfind` / `str.rfind`: greatest index `≤ n`
at which `pat` occurs. -/
def rfindAux (pat b : List Nat) : Nat → Option Nat
  | 0 => if subAt pat b 0 then some 0 else none
  | n + 1 => if subAt pat b (n + 1) then some (n + 1) else rfindAux pat b n

/-- `b.rfind(pat)` (as `Option` instead of `-1`), for nonempty `pat`. -/
def rfindSub (pat b : List Nat) : Option Nat := rfindAux pat b b.length

/-- Leftmost index in `[i, i+fuel)` satisfying `f`. -/
def findFirstAux (f : Nat → Bool) : Nat → Nat → Option Nat
  | _, 0 => none
  | i, fuel + 1 => if f i then some i else findFirstAux f (i + 1) fuel

/-- `b.find(pat)` (as `Option` instead of `-1`), for nonempty `pat`. -/
def findSub (pat b : List Nat) : Option Nat :=
  findFirstAux (fun i => subAt pat b i) 0 (b.length + 1)

/-- `pat in b` (substring containment). -/
def containsSub (pat b : List Nat) : Bool := (findSub pat b).isSome

/-! ## Text-layer decoding (`_to_bytes_from_text_layer` and helpers) -/

/-- Accumulator pass for `re.findall(r"\d+", s)`: `acc` holds the digits
of the run in progress, most recent first. -/
def digitRunsAux : List Nat → List Nat → List (List Nat)
  | acc, [] => if acc.isEmpty then [] else [acc.reverse]
  | acc, c :: rest =>
    if isDigit c then digitRunsAux (c :: acc) rest
    else if acc.isEmpty then digitRunsAux [] rest
    else acc.reverse :: digitRunsAux [] rest

/-- `re.findall(r"\d+", s)`: the maximal runs of decimal digits, in order. -/
def digitRuns (s : List Nat) : List (List Nat) := digitRunsAux [] s

/-- `int(t)` for a run of ASCII digits. -/
def natOfDigits (run : List Nat) : Nat :=
  run.foldl (fun acc c => acc * 10 + (c - 48)) 0

/-- `_try_parse_decimal_bytes_from_text`: every digit run must parse into
`[0, 255]`; `None` when no run exists or some run is out of range. -/
def tryParseDecimal (s : List Nat) : Option (List Nat) :=
  let runs := digitRuns s
  if runs.isEmpty then none
  else if runs.all (fun r => natOfDigits r ≤ 255) then some (runs.map natOfDigits)
  else none

/-- `_clean_hex`: strip, drop a leading `0x`/`0X`/`\x`, keep hex chars. -/
def cleanHex (s : List Nat) : List Nat :=
  let s1 := stripWs s
  let s2 :=
    if startsWith [48, 120] s1 || startsWith [48, 88] s1 || startsWith [92, 120] s1 then
      s1.drop 2
    else s1
  s2.filter isHexChar

/-- Numeric value of one hex character (only meaningful on `HEX_CHARS`). -/
def hexVal (c : Nat) : Nat :=
  if 48 ≤ c && c ≤ 57 then c - 48
  else if 97 ≤ c then c - 87
  else c - 55

/-- `bytes.fromhex` on an even-length cleaned hex string. -/
def fromHexPairs : List Nat → List Nat
  | c1 :: c2 :: rest => (hexVal c1 * 16 + hexVal c2) :: fromHexPairs rest
  | _ => []

/-- Base64 alphabet (without the padding character `=`). -/
def isB64Char (c : Nat) : Bool :=
  (65 ≤ c && c ≤ 90) || (97 ≤ c && c ≤ 122) || (48 ≤ c && c ≤ 57) || c == 43 || c == 47

/-- Sextet value of a base64 alphabet character. -/
def b64Val (c : Nat) : Nat :=
  if 65 ≤ c && c ≤ 90 then c - 65
  else if 97 ≤ c && c ≤ 122 then c - 71
  else if 48 ≤ c && c ≤ 57 then c + 4
  else if c == 43 then 62
  else 63

/-- The character loop of `binascii.a2b_base64` in non-strict mode,
modelled from CPython's implementation: a data character advances the
quad position, emits a byte from position 1 on, and resets the padding
count; an invalid character is skipped; a `=` ends the stream with the
bytes emitted so far once the current quad can be closed by padding
(`2 ≤ quadPos` and `4 ≤ quadPos + pads + 1`); input ending with a partial
quad is an error.  `leftchar` holds the pending low bits, `acc` the
emitted bytes in reverse. -/
def b64Loop : List Nat → Nat → Nat → Nat → List Nat → Option (List Nat)
  | [], quadPos, _, _, acc => if quadPos == 0 then some acc.reverse else none
  | c :: rest, quadPos, leftchar, pads, acc =>
    if c == 61 then
      if 2 ≤ quadPos && 4 ≤ quadPos + pads + 1 then some acc.reverse
      else b64Loop rest quadPos leftchar (pads + 1) acc
    else if isB64Char c then
      match quadPos with
      | 0 => b64Loop rest 1 (b64Val c) 0 acc
      | 1 => b64Loop rest 2 ((leftchar * 64 + b64Val c) % 16) 0
          (((leftchar * 64 + b64Val c) / 16) :: acc)
      | 2 => b64Loop rest 3 ((leftchar * 64 + b64Val c) % 4) 0
          (((leftchar * 64 + b64Val c) / 4) :: acc)
      | _ => b64Loop rest 0 0 0 ((leftchar * 64 + b64Val c) :: acc)
    else
      b64Loop rest quadPos leftchar pads acc

/-- `base64.b64decode` on a `str` argument: the string is first encoded as
ASCII (any code point above 127 raises `ValueError`), then fed to the
non-strict `binascii.a2b_base64` loop.  Both failure modes are collapsed
into `none`; both call sites of the source treat them alike (fall-through
in the pure-Base64 branch, fatal in the data-URL branch). -/
def pyB64decode (s : List Nat) : Option (List Nat) :=
  if s.any (fun c => 127 < c) then none
  else b64Loop s 0 0 0 []

/-- `_looks_like_base64`: after whitespace removal, a full match of
`[A-Za-z0-9+/]+={0,2}` of length at least 8. -/
def looksLikeBase64 (s : List Nat) : Bool :=
  let s1 := removeWs s
  let pads := (s1.reverse.takeWhile (fun c => c == 61)).length
  let core := s1.take (s1.length - pads)
  pads ≤ 2 && !core.isEmpty && core.all isB64Char && s1.length ≥ 8

/-- Failure modes of the text-layer decoder (`ValueError` /
`binascii.Error` in the source). -/
inductive TextErr where
  | dataUrlBad : TextErr
  | unrecognized : TextErr
deriving DecidableEq, Repr

instance {α : Type} [DecidableEq α] : DecidableEq (Except TextErr α) := fun x y =>
  match x, y with
  | Except.ok a, Except.ok b =>
    if h : a = b then isTrue (by rw [h]) else isFalse (by intro hh; cases hh; exact h rfl)
  | Except.error a, Except.error b =>
    if h : a = b then isTrue (by rw [h]) else isFalse (by intro hh; cases hh; exact h rfl)
  | Except.ok _, Except.error _ => isFalse (by intro hh; cases hh)
  | Except.error _, Except.ok _ => isFalse (by intro hh; cases hh)

/-- `"data:"`. -/
def dataPrefix : List Nat := [100, 97, 116, 97, 58]

/-- `";base64,"`. -/
def b64Marker : List Nat := [59, 98, 97, 115, 101, 54, 52, 44]

/-- `_to_bytes_from_text_layer`: data-URL base64, then pure base64 (failure
falls through), then decimal list, then dirty hex (odd length drops the
trailing nibble), else `ValueError`. -/
def toBytesFromTextLayer (rawText : List Nat) : Except TextErr (List Nat) :=
  let s := stripWs rawText
  if startsWith dataPrefix (s.map pyLower) && containsSub b64Marker s then
    match findSub b64Marker s with
    | some p =>
      match pyB64decode (removeWs (s.drop (p + b64Marker.length))) with
      | some v => Except.ok v
      | none => Except.error TextErr.dataUrlBad
    | none => Except.error TextErr.dataUrlBad
  else
    let compact := removeWs s
    match (if looksLikeBase64 compact then pyB64decode compact else none) with
    | some v => Except.ok v
    | none =>
      match tryParseDecimal s with
      | some d => Except.ok d
      | none =>
        let cleaned := cleanHex s
        if cleaned.isEmpty then Except.error TextErr.unrecognized
        else if cleaned.length % 2 != 0 then Except.ok (fromHexPairs cleaned.dropLast)
        else Except.ok (fromHexPairs cleaned)

/-- Lowercase hex character of a value `< 16` (as in `bytes.hex()`). -/
def hexDigitChar (d : Nat) : Nat := if d < 10 then 48 + d else 87 + d

/-- `bytes.hex()`: the lowercase hexadecimal text rendering of a byte
sequence, two characters per byte. -/
def hexRender : List Nat → List Nat
  | [] => []
  | v :: rest => hexDigitChar (v / 16) :: hexDigitChar (v % 16) :: hexRender rest

/-! ## Double-decode detection (`_maybe_double_decode` and helpers).
`b.decode("latin-1", errors="ignore")` never drops anything and is the
identity on octet values, so the byte buffer itself plays the string. -/

/-- `_ascii_is_all_hex_pairs`. -/
def asciiIsAllHexPairs (b : List Nat) : Bool :=
  let s := removeWs b
  s.length ≥ 8 && s.all isHexChar && s.length % 2 == 0

/-- `_ascii_is_decimal_list`: at least one digit, and a full match of
`[\s,\t\r\n;0-9]+` (the class is `\s` plus comma, semicolon, digits). -/
def asciiIsDecimalList (b : List Nat) : Bool :=
  b.any isDigit && b.all (fun c => isSpaceU c || c == 44 || c == 59 || isDigit c)

/-- `_maybe_double_decode`. -/
def maybeDoubleDecode (b : List Nat) : List Nat :=
  if asciiIsAllHexPairs b then fromHexPairs (removeWs b)
  else if asciiIsDecimalList b then
    match tryParseDecimal b with
    | some out => out
    | none => b
  else b

/-! ## PDF helpers -/

/-- `%PDF-`. -/
def pdfMagic : List Nat := [37, 80, 68, 70, 45]

/-- `%%EOF`. -/
def eofPat : List Nat := [37, 37, 69, 79, 70]

/-- `startxref`. -/
def sxPat : List Nat := [115, 116, 97, 114, 116, 120, 114, 101, 102]

/-- `xref`. -/
def xrefPat : List Nat := [120, 114, 101, 102]

/-- `/Type /XRef`. -/
def typeXRefPat : List Nat := [47, 84, 121, 112, 101, 32, 47, 88, 82, 101, 102]

/-- Fuel-driven loop body of `_trim_to_eof`'s `while`. -/
def skipCrlfAux (b : List Nat) : Nat → Nat → Nat
  | e, 0 => e
  | e, fuel + 1 =>
    if e < b.length && (b.getD e 0 == 13 || b.getD e 0 == 10) then
      skipCrlfAux b (e + 1) fuel
    else e

/-- The `while` loop of `_trim_to_eof`: advance `e` over CR/LF bytes (the
loop runs at most `b.length - e` times, which is enough fuel). -/
def skipCrlf (b : List Nat) (e : Nat) : Nat := skipCrlfAux b e (b.length - e)

/-- `_trim_to_eof`. -/
def trimToEof (b : List Nat) : List Nat :=
  match rfindSub eofPat b with
  | none => b
  | some i => b.take (skipCrlf b (i + eofPat.length))

/-- `_find_last_startxref` (as `Option` instead of `-1`). -/
def findLastStartxref (b : List Nat) : Option Nat := rfindSub sxPat b

/-- One attempted match of `rb"startxref\s*[\r\n]+(\d+)"` at position `p`
of window `w`.  The whitespace block before the digits is forced to be the
maximal `\s` run after `startxref` (digits are not whitespace), it must be
nonempty with a final CR/LF, and the captured group is the maximal digit
run that follows. -/
def sxMatchAt (w : List Nat) (p : Nat) : Option Nat :=
  if subAt sxPat w p then
    let q := p + sxPat.length
    let run := (w.drop q).takeWhile isSpaceB
    let e := q + run.length
    if run.length ≥ 1 && (w.getD (e - 1) 0 == 13 || w.getD (e - 1) 0 == 10)
        && e < w.length && isDigit (w.getD e 0) then
      some (natOfDigits ((w.drop e).takeWhile isDigit))
    else none
  else none

/-- `_parse_startxref_value`: leftmost regex match in `b[start:start+100]`. -/
def parseStartxrefValue (b : List Nat) (startIdx : Nat) : Option Nat :=
  let w := (b.drop startIdx).take 100
  match findFirstAux (fun p => (sxMatchAt w p).isSome) 0 (w.length + 1) with
  | some p => sxMatchAt w p
  | none => none

/-- `_looks_like_xref_table_at`. -/
def looksLikeXrefTableAt (b : List Nat) (offset : Nat) : Bool :=
  offset < b.length && startsWith xrefPat (b.drop offset)

/-- `_looks_like_xref_stream_at`. -/
def looksLikeXrefStreamAt (b : List Nat) (offset : Nat) : Bool :=
  offset < b.length &&
    (let window := (b.drop offset).take 2048
     containsSub [111, 98, 106] window && containsSub [47, 84, 121, 112, 101] window
       && containsSub [47, 88, 82, 101, 102] window)

/-- One attempted match of `rb"(\d+)\s+(\d+)\s+obj"` at position `p` of
`w`: a maximal nonempty digit run, a maximal nonempty `\s` run, again, and
then the literal `obj`.  Each run is forced maximal because the class that
follows it is disjoint from its own. -/
def objMatchAt (w : List Nat) (p : Nat) : Bool :=
  isDigit (w.getD p 0) && p < w.length &&
    (let r1 := (w.drop p).takeWhile isDigit
     let q1 := p + r1.length
     let s1 := (w.drop q1).takeWhile isSpaceB
     let q2 := q1 + s1.length
     let r2 := (w.drop q2).takeWhile isDigit
     let q3 := q2 + r2.length
     let s2 := (w.drop q3).takeWhile isSpaceB
     let q4 := q3 + s2.length
     !s1.isEmpty && !r2.isEmpty && !s2.isEmpty && subAt [111, 98, 106] w q4)

/-- `m.start()` of `re.search(rb"(\d+)\s+(\d+)\s+obj", snippet)`. -/
def objSearch (w : List Nat) : Option Nat :=
  findFirstAux (fun p => objMatchAt w p) 0 (w.length + 1)

/-- Little-endian decimal digits of `n`, driven by fuel (`fuel ≥ n`
always suffices, since `n / 10` strictly decreases). -/
def natDigitsRev : Nat → Nat → List Nat
  | _, 0 => []
  | 0, _ + 1 => []
  | fuel + 1, n + 1 => (n + 1) % 10 :: natDigitsRev fuel ((n + 1) / 10)

/-- ASCII decimal rendering of a natural number (`f"{n}"`). -/
def asciiDigits (n : Nat) : List Nat :=
  if n = 0 then [48] else ((natDigitsRev n n).reverse.map (· + 48))

/-- The fresh trailer `f"\nstartxref\n{t}\n%%EOF\n"`. -/
def newTail (t : Nat) : List Nat :=
  10 :: sxPat ++ 10 :: asciiDigits t ++ [10, 37, 37, 69, 79, 70, 10]

/-- `_repair_startxref`. -/
def repairStartxref (b : List Nat) : Option (List Nat) :=
  match findLastStartxref b with
  | none => none
  | some lastSx =>
    let candXref := rfindSub xrefPat b
    let target1 : Option Nat := candXref
    let target2 : Option Nat :=
      match rfindSub typeXRefPat b with
      | none => target1
      | some cs =>
        let start := cs - 200
        let snippet := (b.drop start).take (cs + 200 - start)
        match objSearch snippet with
        | some objLocal =>
          match target1 with
          | none => some (start + objLocal)
          | some t => some t
        | none => target1
    match target2 with
    | none => none
    | some t => some (b.take lastSx ++ newTail t)

/-! ## Main pipeline (`converter_txt_para_pdf_com_reparo`), modulo file
I/O: the returned pair is (trimmed converted buffer, optional repaired
buffer). -/

/-- Steps 5–6 of the pipeline: `startxref` validation, then the repair
attempt when validation fails. -/
def sxValid (trimmed : List Nat) : Bool :=
  match findLastStartxref trimmed with
  | none => false
  | some i =>
    match parseStartxrefValue trimmed i with
    | none => false
    | some v => looksLikeXrefTableAt trimmed v || looksLikeXrefStreamAt trimmed v

/-- The repaired artifact produced by steps 5–6 (`None` when validation
succeeds or repair fails). -/
def xrefStage (trimmed : List Nat) : Option (List Nat) :=
  if sxValid trimmed then none else repairStartxref trimmed

/-- Steps 1–6 of `converter_txt_para_pdf_com_reparo` on the raw text:
text-layer decode, double decode, alignment on `%PDF-` (only when found at
a positive offset), trim to `%%EOF`, then validation/repair. -/
def pipelineCore (rawText : List Nat) : Except TextErr (List Nat × Option (List Nat)) :=
  match toBytesFromTextLayer rawText with
  | Except.error e => Except.error e
  | Except.ok stage1 =>
    let stage2 := maybeDoubleDecode stage1
    let candidate :=
      match findSub pdfMagic stage2 with
      | some pos => if pos > 0 then stage2.drop pos else stage2
      | none => stage2
    let trimmed := trimToEof candidate
    Except.ok (trimmed, xrefStage trimmed)

/-! ## Lemma kit: substring occurrence and `rfind` -/

theorem subAt_iff {pat b : List Nat} {i : Nat} :
    subAt pat b i = true ↔ (b.drop i).take pat.length = pat := by
  simp [subAt]

theorem subAt_le {pat b : List Nat} {i : Nat} (hp : pat ≠ [])
    (h : subAt pat b i = true) : i + pat.length ≤ b.length := by
  have h' : (b.drop i).take pat.length = pat := subAt_iff.mp h
  have hlen := congrArg List.length h'
  simp [List.length_take, List.length_drop] at hlen
  have hpos : 1 ≤ pat.length := by
    cases pat with
    | nil => exact absurd rfl hp
    | cons _ _ => simp
  omega

theorem rfindAux_some {pat b : List Nat} {n i : Nat}
    (h : rfindAux pat b n = some i) :
    subAt pat b i = true ∧ i ≤ n ∧ ∀ j, j ≤ n → subAt pat b j = true → j ≤ i := by
  induction n with
  | zero =>
    by_cases h0 : subAt pat b 0 = true
    · simp [rfindAux, h0] at h
      subst h
      exact ⟨h0, Nat.le_refl 0, fun j hj _ => hj⟩
    · simp [rfindAux, h0] at h
  | succ n ih =>
    by_cases h0 : subAt pat b (n + 1) = true
    · simp [rfindAux, h0] at h
      subst h
      exact ⟨h0, Nat.le_refl _, fun j hj _ => hj⟩
    · simp only [rfindAux, h0, if_false] at h
      obtain ⟨h1, h2, h3⟩ := ih h
      refine ⟨h1, Nat.le_succ_of_le h2, fun j hj hsub => ?_⟩
      rcases Nat.lt_succ_iff_lt_or_eq.mp (Nat.lt_succ_of_le hj) with hlt | heq
      · exact h3 j (Nat.lt_succ_iff.mp hlt) hsub
      · exact absurd (heq ▸ hsub) (by simp [h0])

theorem rfindAux_none {pat b : List Nat} {n : Nat}
    (h : rfindAux pat b n = none) : ∀ j, j ≤ n → subAt pat b j = false := by
  induction n with
  | zero =>
    intro j hj
    interval_cases j
    by_cases h0 : subAt pat b 0 = true
    · simp [rfindAux, h0] at h
    · simpa using h0
  | succ n ih =>
    intro j hj
    by_cases h0 : subAt pat b (n + 1) = true
    · simp [rfindAux, h0] at h
    · simp only [rfindAux, h0, if_false] at h
      rcases Nat.lt_succ_iff_lt_or_eq.mp (Nat.lt_succ_of_le hj) with hlt | heq
      · exact ih h j (Nat.lt_succ_iff.mp hlt)
      · simpa [heq] using h0

theorem rfindSub_some {pat b : List Nat} {i : Nat} (hp : pat ≠ [])
    (h : rfindSub pat b = some i) :
    subAt pat b i = true ∧ ∀ j, subAt pat b j = true → j ≤ i := by
  obtain ⟨h1, _, h3⟩ := rfindAux_some h
  refine ⟨h1, fun j hj => ?_⟩
  have := subAt_le hp hj
  exact h3 j (by omega) hj

theorem rfindSub_none {pat b : List Nat} (hp : pat ≠ [])
    (h : rfindSub pat b = none) : ∀ j, subAt pat b j = false := by
  intro j
  by_cases hj : j ≤ b.length
  · exact rfindAux_none h j hj
  · by_contra hc
    have := subAt_le hp (by simpa using hc)
    omega

theorem rfindSub_isSome {pat b : List Nat} {j : Nat} (hp : pat ≠ [])
    (h : subAt pat b j = true) : ∃ i, rfindSub pat b = some i := by
  cases hr : rfindSub pat b with
  | none => exact absurd h (by simp [rfindSub_none hp hr j])
  | some i => exact ⟨i, rfl⟩

theorem findFirstAux_start {f : Nat → Bool} {i fuel : Nat} (h : f i = true) :
    findFirstAux f i (fuel + 1) = some i := by
  simp [findFirstAux, h]

theorem findFirstAux_none {f : Nat → Bool} {i fuel : Nat}
    (h : findFirstAux f i fuel = none) :
    ∀ k, i ≤ k → k < i + fuel → f k = false := by
  induction fuel generalizing i with
  | zero => omega
  | succ fuel ih =>
    intro k hk1 hk2
    by_cases h0 : f i = true
    · simp [findFirstAux, h0] at h
    · simp only [findFirstAux, h0, if_false] at h
      rcases Nat.eq_or_lt_of_le hk1 with heq | hlt
      · simpa [← heq] using h0
      · exact ih h k hlt (by omega)

theorem subAt_append_right {p q b : List Nat} {i : Nat}
    (h : subAt (p ++ q) b i = true) : subAt q b (i + p.length) = true := by
  have h' : (b.drop i).take (p ++ q).length = p ++ q := subAt_iff.mp h
  apply subAt_iff.mpr
  have h2 := congrArg (List.drop p.length) h'
  rw [List.drop_take, List.drop_drop, List.drop_left] at h2
  rw [List.length_append, Nat.add_comm p.length q.length, Nat.add_sub_cancel] at h2
  exact h2

/-! ## Lemma kit: character classes and `hexRender` -/

theorem hexDigitChar_range {d : Nat} (hd : d ≤ 15) :
    (48 ≤ hexDigitChar d ∧ hexDigitChar d ≤ 57) ∨
      (97 ≤ hexDigitChar d ∧ hexDigitChar d ≤ 102) := by
  unfold hexDigitChar
  split <;> omega

theorem hexRender_mem {b : List Nat} (hb : ∀ v ∈ b, v < 256) :
    ∀ c ∈ hexRender b, (48 ≤ c ∧ c ≤ 57) ∨ (97 ≤ c ∧ c ≤ 102) := by
  induction b with
  | nil => simp [hexRender]
  | cons v rest ih =>
    intro c hc
    have hv : v < 256 := hb v (by simp)
    simp only [hexRender, List.mem_cons] at hc
    rcases hc with h | h | h
    · exact h ▸ hexDigitChar_range (by omega)
    · exact h ▸ hexDigitChar_range (by omega)
    · exact ih (fun x hx => hb x (by simp [hx])) c h

theorem hexVal_hexDigitChar {d : Nat} (hd : d ≤ 15) : hexVal (hexDigitChar d) = d := by
  unfold hexVal hexDigitChar
  split_ifs with h1 h2 h3 h4 h5 <;> simp_all <;> omega

theorem fromHexPairs_hexRender {b : List Nat} (hb : ∀ v ∈ b, v < 256) :
    fromHexPairs (hexRender b) = b := by
  induction b with
  | nil => rfl
  | cons v rest ih =>
    have hv : v < 256 := hb v (by simp)
    rw [hexRender, fromHexPairs, ih (fun x hx => hb x (by simp [hx]))]
    rw [hexVal_hexDigitChar (by omega), hexVal_hexDigitChar (by omega)]
    congr 1
    omega

theorem hexRender_length {b : List Nat} : (hexRender b).length = 2 * b.length := by
  induction b with
  | nil => rfl
  | cons v rest ih => simp [hexRender, ih]; omega

theorem dropWhile_eq_self_of_none {p : Nat → Bool} {l : List Nat}
    (h : ∀ c ∈ l, p c = false) : l.dropWhile p = l := by
  cases l with
  | nil => rfl
  | cons a t => simp [List.dropWhile_cons, h a (by simp)]

theorem stripWs_eq_self {l : List Nat} (h : ∀ c ∈ l, isSpaceU c = false) :
    stripWs l = l := by
  unfold stripWs
  rw [dropWhile_eq_self_of_none h,
    dropWhile_eq_self_of_none (fun c hc => h c (List.mem_reverse.mp hc)),
    List.reverse_reverse]

theorem removeWs_eq_self {l : List Nat} (h : ∀ c ∈ l, isSpaceU c = false) :
    removeWs l = l := by
  unfold removeWs
  apply List.filter_eq_self.mpr
  intro a ha
  simp [h a ha]

theorem startsWith_false_of_forbidden {p s : List Nat} {x : Nat} (hx : x ∈ p)
    (hs : ∀ c ∈ s, c ≠ x) : startsWith p s = false := by
  by_contra hc
  rw [Bool.not_eq_false, startsWith, decide_eq_true_iff] at hc
  have hxs : x ∈ s := List.take_subset _ _ (hc ▸ hx)
  exact hs x hxs rfl

/-! ## Lemma kit: the CR/LF skipping loop of `_trim_to_eof` -/

theorem crlfGuard_iff {b : List Nat} {e : Nat} :
    (decide (e < b.length) && (b.getD e 0 == 13 || b.getD e 0 == 10)) = true ↔
      e < b.length ∧ (b.getD e 0 = 13 ∨ b.getD e 0 = 10) := by
  rw [Bool.and_eq_true, decide_eq_true_iff, Bool.or_eq_true, beq_iff_eq, beq_iff_eq]

theorem skipCrlfAux_ge {b : List Nat} {e fuel : Nat} : e ≤ skipCrlfAux b e fuel := by
  induction fuel generalizing e with
  | zero => exact Nat.le_refl e
  | succ fuel ih =>
    unfold skipCrlfAux
    split
    · exact Nat.le_trans (Nat.le_succ e) ih
    · exact Nat.le_refl e

theorem skipCrlfAux_le {b : List Nat} {e fuel : Nat} (he : e ≤ b.length) :
    skipCrlfAux b e fuel ≤ b.length := by
  induction fuel generalizing e with
  | zero => exact he
  | succ fuel ih =>
    unfold skipCrlfAux
    split
    · rename_i h
      exact ih (crlfGuard_iff.mp h).1
    · exact he

theorem skipCrlfAux_crlf {b : List Nat} {e fuel : Nat} :
    ∀ j, e ≤ j → j < skipCrlfAux b e fuel → b.getD j 0 = 13 ∨ b.getD j 0 = 10 := by
  induction fuel generalizing e with
  | zero =>
    intro j h1 h2
    exact absurd (Nat.lt_of_le_of_lt h1 h2) (by simp [skipCrlfAux])
  | succ fuel ih =>
    intro j h1 h2
    rw [skipCrlfAux] at h2
    split at h2
    · rename_i h
      rcases Nat.eq_or_lt_of_le h1 with heq | hlt
      · exact heq ▸ (crlfGuard_iff.mp h).2
      · exact ih j hlt h2
    · omega

theorem skipCrlfAux_stop {b : List Nat} {e fuel : Nat} (hfuel : b.length ≤ e + fuel) :
    skipCrlfAux b e fuel < b.length →
      ¬(b.getD (skipCrlfAux b e fuel) 0 = 13 ∨ b.getD (skipCrlfAux b e fuel) 0 = 10) := by
  induction fuel generalizing e with
  | zero =>
    intro hlt
    simp only [skipCrlfAux] at hlt ⊢
    omega
  | succ fuel ih =>
    rw [skipCrlfAux]
    split
    · exact ih (by omega)
    · rename_i h
      intro hlt hcr
      exact h (crlfGuard_iff.mpr ⟨hlt, hcr⟩)

theorem skipCrlfAux_unique {b : List Nat} {fuel : Nat} :
    ∀ {e e' : Nat}, b.length ≤ e + fuel → e ≤ e' → e' ≤ b.length →
      (∀ j, e ≤ j → j < e' → b.getD j 0 = 13 ∨ b.getD j 0 = 10) →
      (e' < b.length → ¬(b.getD e' 0 = 13 ∨ b.getD e' 0 = 10)) →
      skipCrlfAux b e fuel = e' := by
  induction fuel with
  | zero =>
    intro e e' hfuel h1 h2 _ _
    simp only [skipCrlfAux]
    omega
  | succ fuel ih =>
    intro e e' hfuel h1 h2 hall hstop
    rw [skipCrlfAux]
    split
    · rename_i h
      obtain ⟨hel, hcr⟩ := crlfGuard_iff.mp h
      have hne : e ≠ e' := by
        intro heq
        exact hstop (heq ▸ hel) (heq ▸ hcr)
      exact ih (by omega) (by omega) h2 (fun j hj1 hj2 => hall j (by omega) hj2) hstop
    · rename_i h
      rcases Nat.eq_or_lt_of_le h1 with heq | hlt
      · exact heq
      · exact absurd (crlfGuard_iff.mpr ⟨by omega, hall e (Nat.le_refl e) hlt⟩) h

theorem skipCrlf_ge {b : List Nat} {e : Nat} : e ≤ skipCrlf b e := skipCrlfAux_ge

theorem skipCrlf_le {b : List Nat} {e : Nat} (he : e ≤ b.length) :
    skipCrlf b e ≤ b.length := skipCrlfAux_le he

theorem skipCrlf_crlf {b : List Nat} {e : Nat} :
    ∀ j, e ≤ j → j < skipCrlf b e → b.getD j 0 = 13 ∨ b.getD j 0 = 10 := skipCrlfAux_crlf

theorem skipCrlf_stop {b : List Nat} {e : Nat} :
    skipCrlf b e < b.length →
      ¬(b.getD (skipCrlf b e) 0 = 13 ∨ b.getD (skipCrlf b e) 0 = 10) :=
  skipCrlfAux_stop (by omega)

theorem skipCrlf_unique {b : List Nat} {e e' : Nat} (h1 : e ≤ e') (h2 : e' ≤ b.length)
    (hall : ∀ j, e ≤ j → j < e' → b.getD j 0 = 13 ∨ b.getD j 0 = 10)
    (hstop : e' < b.length → ¬(b.getD e' 0 = 13 ∨ b.getD e' 0 = 10)) :
    skipCrlf b e = e' :=
  skipCrlfAux_unique (by omega) h1 h2 hall hstop

theorem subAt_take_elim {p b : List Nat} {e j : Nat}
    (h : subAt p (b.take e) j = true) : subAt p b j = true := by
  rw [subAt_iff] at h ⊢
  rw [List.drop_take, List.take_take] at h
  have hlen := congrArg List.length h
  simp only [List.length_take] at hlen
  have hmin : min p.length (e - j) = p.length := by omega
  rwa [hmin] at h

theorem subAt_take_intro {p b : List Nat} {e j : Nat}
    (h : subAt p b j = true) (he : j + p.length ≤ e) : subAt p (b.take e) j = true := by
  rw [subAt_iff] at h ⊢
  rw [List.drop_take, List.take_take]
  have hmin : min p.length (e - j) = p.length := by omega
  rwa [hmin]

theorem getD_take {b : List Nat} {e j : Nat} (hj : j < e) :
    (b.take e).getD j 0 = b.getD j 0 := by
  by_cases hb : j < b.length
  · rw [List.getD_eq_getElem?_getD, List.getD_eq_getElem?_getD]
    rw [List.getElem?_take_of_lt hj]
  · rw [List.getD_eq_default _ _ (by simp [List.length_take]; omega),
      List.getD_eq_default _ _ (by omega)]

/-! ## Claim C1 -/

/-- C1 counterexample: feeding `hex(b"\x0a") = "0a"` to the text-layer
decoder does not return `b"\x0a"` — the decimal-list heuristic intercepts
the hex string first and yields `b"\x00"`. -/
theorem hex_roundtrip_cex : toBytesFromTextLayer (hexRender [10]) ≠ Except.ok [10] := by
  decide

/-- C1 (amended): `decode(hex(b)) == b` holds only when the earlier
heuristics decline the hex string: `b` is nonempty, the pure-Base64
attempt on `hex(b)` does not succeed, and the decimal-list parse rejects
it; under those conditions the dirty-hex path reproduces `b` exactly. -/
theorem hex_roundtrip_guarded (b : List Nat) (hb : b ≠ []) (hbyte : ∀ v ∈ b, v < 256)
    (hb64 : (if looksLikeBase64 (hexRender b) then pyB64decode (hexRender b) else none) = none)
    (hdec : tryParseDecimal (hexRender b) = none) :
    toBytesFromTextLayer (hexRender b) = Except.ok b := by
  have hmem := hexRender_mem hbyte
  have hnospace : ∀ c ∈ hexRender b, isSpaceU c = false := by
    intro c hc
    rcases hmem c hc with ⟨h1, h2⟩ | ⟨h1, h2⟩ <;>
      · simp only [isSpaceU, Bool.or_eq_false_iff, Bool.and_eq_false_iff,
          decide_eq_false_iff_not, Nat.not_le, beq_eq_false_iff_ne]
        omega
  have hstrip : stripWs (hexRender b) = hexRender b := stripWs_eq_self hnospace
  have hrem : removeWs (hexRender b) = hexRender b := removeWs_eq_self hnospace
  have hdata : startsWith dataPrefix ((hexRender b).map pyLower) = false := by
    apply startsWith_false_of_forbidden (x := 116) (by simp [dataPrefix])
    intro c hc
    rcases List.mem_map.mp hc with ⟨c', hc', rfl⟩
    rcases hmem c' hc' with ⟨h1, h2⟩ | ⟨h1, h2⟩ <;>
      · simp only [pyLower]
        split <;> omega
  have hhexall : ∀ c ∈ hexRender b, isHexChar c = true := by
    intro c hc
    rcases hmem c hc with ⟨h1, h2⟩ | ⟨h1, h2⟩ <;>
      · simp only [isHexChar, Bool.or_eq_true, Bool.and_eq_true, decide_eq_true_iff]
        omega
  have hclean : cleanHex (hexRender b) = hexRender b := by
    unfold cleanHex
    rw [hstrip]
    have h1 : startsWith [48, 120] (hexRender b) = false := by
      apply startsWith_false_of_forbidden (x := 120) (by simp)
      intro c hc
      rcases hmem c hc with ⟨_, _⟩ | ⟨_, _⟩ <;> omega
    have h2 : startsWith [48, 88] (hexRender b) = false := by
      apply startsWith_false_of_forbidden (x := 88) (by simp)
      intro c hc
      rcases hmem c hc with ⟨_, _⟩ | ⟨_, _⟩ <;> omega
    have h3 : startsWith [92, 120] (hexRender b) = false := by
      apply startsWith_false_of_forbidden (x := 92) (by simp)
      intro c hc
      rcases hmem c hc with ⟨_, _⟩ | ⟨_, _⟩ <;> omega
    simp only [h1, h2, h3, Bool.or_self, Bool.false_or, if_false]
    exact List.filter_eq_self.mpr hhexall
  have hne : (hexRender b).isEmpty = false := by
    cases b with
    | nil => exact absurd rfl hb
    | cons v rest => simp [hexRender]
  have heven : (hexRender b).length % 2 = 0 := by
    rw [hexRender_length]; omega
  unfold toBytesFromTextLayer
  rw [hstrip]
  simp only [hdata, Bool.false_and, Bool.false_eq_true, if_false, hrem, hb64, hdec, hclean,
    hne, heven, bne_self_eq_false, fromHexPairs_hexRender hbyte]

/-- C1 witness: the guarded round trip at `b = [0xab, 0xcd]`, whose hex
rendering `"abcd"` is too short for the Base64 stage and has no digits for
the decimal stage. -/
theorem hex_roundtrip_guarded_witness :
    toBytesFromTextLayer (hexRender [171, 205]) = Except.ok [171, 205] :=
  hex_roundtrip_guarded [171, 205] (by decide) (by decide) (by decide) (by decide)

/-! ## Claim C3 -/

/-- C3 counterexample: the input text `"00"` decodes to the buffer `[0]`,
which contains no `%PDF-` marker, yet the pipeline raises nothing and
produces the converted artifact `[0]`. -/
theorem no_pdf_marker_cex :
    pipelineCore [48, 48] = Except.ok ([0], none) ∧ findSub pdfMagic [0] = none := by
  decide

/-- C3 (amended): when the text layer decodes and the decoded buffer has
no `%PDF-` marker, the pipeline does not fail — it returns the trimmed
buffer as the converted artifact (no `NotAPdfError` exists in the code). -/
theorem no_pdf_marker_still_ok (raw s1 : List Nat)
    (hdecode : toBytesFromTextLayer raw = Except.ok s1)
    (hnopdf : findSub pdfMagic (maybeDoubleDecode s1) = none) :
    pipelineCore raw =
      Except.ok (trimToEof (maybeDoubleDecode s1),
        xrefStage (trimToEof (maybeDoubleDecode s1))) := by
  unfold pipelineCore
  simp [hdecode, hnopdf]

/-- C3 witness: the amended statement at the concrete input `"00"`. -/
theorem no_pdf_marker_still_ok_witness :
    pipelineCore [48, 48] =
      Except.ok (trimToEof (maybeDoubleDecode [0]),
        xrefStage (trimToEof (maybeDoubleDecode [0]))) :=
  no_pdf_marker_still_ok [48, 48] [0] (by decide) (by decide)

/-! ## Claim C4 -/

/-- C4 counterexample: the input `"abc"` reaches the dirty-hex path with
three hex digits (odd) and decodes to the single byte `0xab` — the
trailing nibble is silently dropped, no error is raised. -/
theorem odd_hex_cex : toBytesFromTextLayer [97, 98, 99] = Except.ok [171] := by
  decide

/-- C4 (amended): on the dirty-hex path with an odd number of remaining
hex digits, the decoder silently drops the trailing nibble and returns the
shortened byte sequence; no `TruncatedHexError` exists in the code. -/
theorem odd_hex_drops_nibble (raw : List Nat)
    (hdata : (startsWith dataPrefix ((stripWs raw).map pyLower)
      && containsSub b64Marker (stripWs raw)) = false)
    (hb64 : (if looksLikeBase64 (removeWs (stripWs raw))
      then pyB64decode (removeWs (stripWs raw)) else none) = none)
    (hdec : tryParseDecimal (stripWs raw) = none)
    (hne : (cleanHex (stripWs raw)).isEmpty = false)
    (hodd : (cleanHex (stripWs raw)).length % 2 = 1) :
    toBytesFromTextLayer raw = Except.ok (fromHexPairs (cleanHex (stripWs raw)).dropLast) := by
  unfold toBytesFromTextLayer
  simp [hdata, hb64, hdec, hne, hodd]

/-- C4 witness: the amended statement at the concrete input `"abc"`. -/
theorem odd_hex_drops_nibble_witness :
    toBytesFromTextLayer [97, 98, 99] =
      Except.ok (fromHexPairs (cleanHex (stripWs [97, 98, 99])).dropLast) :=
  odd_hex_drops_nibble [97, 98, 99] (by decide) (by decide) (by decide) (by decide) (by decide)

/-! ## Claim C5 -/

/-- C5 counterexample: the double-decode stage is not idempotent — on the
buffer `b"3030303030303030"` (the hex rendering of a hex rendering) each
call strips one more encoding layer. -/
theorem double_decode_cex :
    maybeDoubleDecode (maybeDoubleDecode [51, 48, 51, 48, 51, 48, 51, 48,
        51, 48, 51, 48, 51, 48, 51, 48]) ≠
      maybeDoubleDecode [51, 48, 51, 48, 51, 48, 51, 48, 51, 48, 51, 48, 51, 48, 51, 48] := by
  decide

/-- C5 (amended): each call of the double-decode stage performs one more
decoding pass, so idempotence fails in general; it does hold under the
sufficient condition that the stage's output is not classified as hex
pairs and either is not classified as a decimal list or has a rejecting
decimal parse (such as `b"999"`, whose token exceeds 255) — in particular
on every binary-looking buffer. -/
theorem double_decode_idem_cond (b : List Nat)
    (h1 : asciiIsAllHexPairs (maybeDoubleDecode b) = false)
    (h2 : asciiIsDecimalList (maybeDoubleDecode b) = false ∨
      tryParseDecimal (maybeDoubleDecode b) = none) :
    maybeDoubleDecode (maybeDoubleDecode b) = maybeDoubleDecode b := by
  generalize maybeDoubleDecode b = m at h1 h2 ⊢
  rcases h2 with h2 | h2
  · simp [maybeDoubleDecode, h1, h2]
  · simp [maybeDoubleDecode, h1, h2]

/-- C5 witness: the conditional idempotence at the buffer `b"999"`, which
is classified as a decimal list but whose parse rejects the token 999. -/
theorem double_decode_idem_cond_witness :
    maybeDoubleDecode (maybeDoubleDecode [57, 57, 57]) = maybeDoubleDecode [57, 57, 57] :=
  double_decode_idem_cond [57, 57, 57] (by decide) (Or.inr (by decide))

/-! ## Claim C10 -/

/-- C10: any buffer containing a byte that is neither a hex digit, nor
whitespace, nor a comma, semicolon or decimal digit (for example `%` =
0x25, the first byte of `%PDF-`) is returned unchanged by the
double-decode stage. -/
theorem double_decode_id_outlier (b : List Nat) (c : Nat) (hc : c ∈ b)
    (hhex : isHexChar c = false) (hsp : isSpaceU c = false)
    (hcm : c ≠ 44) (hsc : c ≠ 59) :
    maybeDoubleDecode b = b := by
  have hdig : isDigit c = false := by
    simp only [isHexChar, Bool.or_eq_false_iff, Bool.and_eq_false_iff, decide_eq_false_iff_not,
      Nat.not_le] at hhex
    simp only [isDigit, Bool.and_eq_false_iff, decide_eq_false_iff_not, Nat.not_le]
    omega
  have hmem : c ∈ removeWs b := List.mem_filter.mpr ⟨hc, by simp [hsp]⟩
  have h1 : asciiIsAllHexPairs b = false := by
    have : (removeWs b).all isHexChar = false :=
      List.all_eq_false.mpr ⟨c, hmem, by simp [hhex]⟩
    simp [asciiIsAllHexPairs, this]
  have h2 : asciiIsDecimalList b = false := by
    have : b.all (fun ch => isSpaceU ch || ch == 44 || ch == 59 || isDigit ch) = false :=
      List.all_eq_false.mpr ⟨c, hc, by simp [hsp, hcm, hsc, hdig]⟩
    simp [asciiIsDecimalList, this]
  simp [maybeDoubleDecode, h1, h2]

/-- C10 witness: the buffer `b"%PDF-1.4"` is a fixed point of the
double-decode stage, via its leading `%` byte. -/
theorem double_decode_id_outlier_witness :
    maybeDoubleDecode [37, 80, 68, 70, 45, 49, 46, 52] = [37, 80, 68, 70, 45, 49, 46, 52] :=
  double_decode_id_outlier [37, 80, 68, 70, 45, 49, 46, 52] 37 (by decide) (by decide)
    (by decide) (by decide) (by decide)

/-! ## Claim C6 -/

/-- C6: `_trim_to_eof` never extends the buffer; a buffer with no `%%EOF`
occurrence is returned unchanged; and when a last occurrence at index `i`
exists, the output is the prefix ending immediately after that occurrence
plus the immediately trailing run of CR/LF bytes. -/
theorem trim_to_eof_props (b : List Nat) :
    (trimToEof b).length ≤ b.length ∧
    ((∀ j, subAt eofPat b j = false) → trimToEof b = b) ∧
    (∀ i, subAt eofPat b i = true → (∀ j, subAt eofPat b j = true → j ≤ i) →
      ∃ e, i + eofPat.length ≤ e ∧ e ≤ b.length ∧
        (∀ j, i + eofPat.length ≤ j → j < e → (b.getD j 0 = 13 ∨ b.getD j 0 = 10)) ∧
        (e < b.length → ¬(b.getD e 0 = 13 ∨ b.getD e 0 = 10)) ∧
        trimToEof b = b.take e) := by
  refine ⟨?_, ?_, ?_⟩
  · unfold trimToEof
    cases hr : rfindSub eofPat b with
    | none => exact Nat.le_refl _
    | some i => simp [List.length_take]
  · intro hnone
    cases hr : rfindSub eofPat b with
    | none => simp only [trimToEof, hr]
    | some i =>
      have hocc := (rfindSub_some (by decide) hr).1
      rw [hnone i] at hocc
      exact absurd hocc (by simp)
  · intro i hocc hmax
    obtain ⟨i', hr⟩ := rfindSub_isSome (by decide) hocc
    obtain ⟨hocc', hmax'⟩ := rfindSub_some (by decide) hr
    have hii : i' = i := Nat.le_antisymm (hmax i' hocc') (hmax' i hocc)
    rw [hii] at hr
    have hlen : i + eofPat.length ≤ b.length := subAt_le (by decide) hocc
    refine ⟨skipCrlf b (i + eofPat.length), skipCrlf_ge, skipCrlf_le hlen,
      skipCrlf_crlf, skipCrlf_stop, ?_⟩
    simp only [trimToEof, hr]

/-- C6 witness: the buffer `b"A"` has no `%%EOF` and is returned
unchanged. -/
theorem trim_to_eof_props_witness : trimToEof [65] = [65] :=
  (trim_to_eof_props [65]).2.1 (fun j => by
    rw [Bool.eq_false_iff]
    intro hc
    have hb := subAt_le (by decide) hc
    simp [eofPat] at hb)

/-! ## Claim C7 -/

/-- C7: `_trim_to_eof` is idempotent. -/
theorem trim_to_eof_idempotent (b : List Nat) :
    trimToEof (trimToEof b) = trimToEof b := by
  cases hr : rfindSub eofPat b with
  | none =>
    have hb : trimToEof b = b := by simp only [trimToEof, hr]
    rw [hb]
    exact hb
  | some i =>
    obtain ⟨hocc, hmax⟩ := rfindSub_some (by decide) hr
    have hlen : i + eofPat.length ≤ b.length := subAt_le (by decide) hocc
    set e := skipCrlf b (i + eofPat.length) with hedef
    have hee : i + eofPat.length ≤ e := skipCrlf_ge
    have hel : e ≤ b.length := skipCrlf_le hlen
    have htb : trimToEof b = b.take e := by simp only [trimToEof, hr]
    rw [htb]
    have htlen : (b.take e).length = e := by simp [List.length_take]; omega
    have hocct : subAt eofPat (b.take e) i = true := subAt_take_intro hocc (by omega)
    have hrt : rfindSub eofPat (b.take e) = some i := by
      obtain ⟨i', hr'⟩ := rfindSub_isSome (by decide) hocct
      obtain ⟨ho', hm'⟩ := rfindSub_some (by decide) hr'
      have heq : i' = i := Nat.le_antisymm (hmax i' (subAt_take_elim ho')) (hm' i hocct)
      rwa [heq] at hr'
    have hskip : skipCrlf (b.take e) (i + eofPat.length) = e := by
      apply skipCrlf_unique hee (by omega)
      · intro j hj1 hj2
        rw [getD_take hj2]
        exact skipCrlf_crlf j hj1 hj2
      · intro hlt
        rw [htlen] at hlt
        exact absurd hlt (lt_irrefl e)
    simp only [trimToEof, hrt, hskip, List.take_take, Nat.min_self]


/-! ## Lemma kit: decimal renderings and the rewritten trailer -/

theorem natDigitsRev_mem {fuel n : Nat} : ∀ d ∈ natDigitsRev fuel n, d < 10 := by
  induction fuel generalizing n with
  | zero =>
    cases n <;> simp [natDigitsRev]
  | succ fuel ih =>
    cases n with
    | zero => simp [natDigitsRev]
    | succ m =>
      intro d hd
      rw [natDigitsRev] at hd
      rcases List.mem_cons.mp hd with h | h
      · omega
      · exact ih d h

theorem natDigitsRev_length {fuel n k : Nat} (h : n < 10 ^ k) :
    (natDigitsRev fuel n).length ≤ k := by
  induction fuel generalizing n k with
  | zero => cases n <;> simp [natDigitsRev]
  | succ fuel ih =>
    cases n with
    | zero => simp [natDigitsRev]
    | succ m =>
      cases k with
      | zero => simp at h
      | succ k' =>
        rw [natDigitsRev]
        simp only [List.length_cons]
        have hdiv : (m + 1) / 10 < 10 ^ k' := by
          rw [Nat.div_lt_iff_lt_mul (by omega)]
          calc m + 1 < 10 ^ (k' + 1) := h
            _ = 10 ^ k' * 10 := by rw [Nat.pow_succ]
        exact Nat.succ_le_succ (ih hdiv)

theorem natDigitsRev_foldl {fuel : Nat} : ∀ {n acc : Nat}, n ≤ fuel →
    ((natDigitsRev fuel n).reverse.map (· + 48)).foldl (fun a c => a * 10 + (c - 48)) acc =
      acc * 10 ^ (natDigitsRev fuel n).length + n := by
  induction fuel with
  | zero =>
    intro n acc hn
    interval_cases n
    simp [natDigitsRev]
  | succ fuel ih =>
    intro n acc hn
    cases n with
    | zero => simp [natDigitsRev]
    | succ m =>
      rw [natDigitsRev]
      simp only [List.reverse_cons, List.map_append, List.map_cons, List.map_nil,
        List.foldl_append, List.length_cons]
      have hdiv : (m + 1) / 10 ≤ fuel := by
        have := Nat.div_lt_self (Nat.succ_pos m) (by omega : 1 < 10)
        omega
      rw [ih hdiv]
      simp only [List.foldl_cons, List.foldl_nil]
      rw [Nat.pow_succ]
      have : (m + 1) % 10 + 48 - 48 = (m + 1) % 10 := by omega
      rw [this]
      ring_nf
      omega

theorem asciiDigits_mem {n : Nat} : ∀ d ∈ asciiDigits n, 48 ≤ d ∧ d ≤ 57 := by
  intro d hd
  unfold asciiDigits at hd
  split at hd
  · simp at hd
    omega
  · rcases List.mem_map.mp hd with ⟨x, hx, rfl⟩
    have := natDigitsRev_mem x (List.mem_reverse.mp hx)
    omega

theorem asciiDigits_ne_nil {n : Nat} : asciiDigits n ≠ [] := by
  unfold asciiDigits
  split
  · simp
  · rename_i hn
    cases hfuel : n with
    | zero => exact absurd hfuel hn
    | succ m =>
      rw [natDigitsRev]
      simp

theorem asciiDigits_length {n k : Nat} (hk : 1 ≤ k) (h : n < 10 ^ k) :
    (asciiDigits n).length ≤ k := by
  unfold asciiDigits
  split
  · simpa using hk
  · rw [List.length_map, List.length_reverse]
    exact natDigitsRev_length h

theorem natOfDigits_asciiDigits {n : Nat} : natOfDigits (asciiDigits n) = n := by
  unfold natOfDigits asciiDigits
  split
  · rename_i h
    subst h
    decide
  · rw [natDigitsRev_foldl (Nat.le_refl n)]
    omega



theorem repairStartxref_eq {b : List Nat} {i : Nat}
    (hsx : findLastStartxref b = some i) :
    ∃ t, subAt xrefPat b t = true ∧ (∀ j, subAt xrefPat b j = true → j ≤ t) ∧
      repairStartxref b = some (b.take i ++ newTail t) := by
  have hocc : subAt sxPat b i = true := (rfindSub_some (by decide) hsx).1
  have hx5 : subAt xrefPat b (i + 5) = true := by
    have hsplit : sxPat = [115, 116, 97, 114, 116] ++ xrefPat := by decide
    have := subAt_append_right (p := [115, 116, 97, 114, 116]) (q := xrefPat)
      (hsplit ▸ hocc)
    simpa using this
  obtain ⟨t, hxr⟩ := rfindSub_isSome (by decide) hx5
  obtain ⟨hxt, hxmax⟩ := rfindSub_some (by decide) hxr
  refine ⟨t, hxt, hxmax, ?_⟩
  simp only [repairStartxref, hsx, hxr]
  cases hts : rfindSub typeXRefPat b with
  | none => simp only [hts]
  | some cs =>
    simp only [hts]
    cases ho : objSearch ((b.drop (cs - 200)).take (cs + 200 - (cs - 200))) with
    | none => simp only [ho]
    | some o => simp only [ho]

/-! ## Claim C9 -/

/-- C9 (amended): when a buffer contains a `startxref` keyword that is not
followed by a parseable integer offset, validation fails but the pipeline
still attempts repair, and repair always succeeds (the `xref` substring
inside `startxref` itself is a candidate), so a repaired artifact IS
produced. -/
theorem xref_illegible_still_repairs (b : List Nat) (i : Nat)
    (hsx : findLastStartxref b = some i)
    (hparse : parseStartxrefValue b i = none) :
    ∃ r, xrefStage b = some r := by
  have hval : sxValid b = false := by
    simp only [sxValid, hsx, hparse]
  obtain ⟨t, _, _, hrep⟩ := repairStartxref_eq hsx
  refine ⟨b.take i ++ newTail t, ?_⟩
  simp only [xrefStage, hval, Bool.false_eq_true, if_false]
  exact hrep



theorem takeWhile_append_all {p : Nat → Bool} {xs ys : List Nat}
    (h : ∀ x ∈ xs, p x = true) :
    (xs ++ ys).takeWhile p = xs ++ ys.takeWhile p := by
  induction xs with
  | nil => rfl
  | cons a l ih =>
    rw [List.cons_append, List.takeWhile_cons, if_pos (h a (by simp)),
      ih (fun x hx => h x (by simp [hx])), List.cons_append]

theorem takeWhile_cons_false {p : Nat → Bool} {a : Nat} {l : List Nat}
    (h : p a = false) : (a :: l).takeWhile p = [] := by
  rw [List.takeWhile_cons, if_neg (by simp [h])]

theorem subAt_head {c : Nat} {p b : List Nat} {j : Nat}
    (h : subAt (c :: p) b j = true) : b.getD j 0 = c := by
  rw [subAt_iff] at h
  cases hd : b.drop j with
  | nil => rw [hd] at h; simp at h
  | cons a l =>
    rw [hd, List.length_cons, List.take_succ_cons] at h
    have ha : a = c := (List.cons_eq_cons.mp h).1
    have h0 : b[j]? = some a := by
      have := List.getElem?_drop b j 0
      rw [hd] at this
      simpa using this.symm
    rw [List.getD_eq_getElem?_getD, h0]
    simpa using ha

theorem isSpaceB_false_of_digit {c : Nat} (h1 : 48 ≤ c) : isSpaceB c = false := by
  simp only [isSpaceB, Bool.or_eq_false_iff, Bool.and_eq_false_iff, decide_eq_false_iff_not,
    Nat.not_le, beq_eq_false_iff_ne]
  omega

theorem isDigit_true_of {c : Nat} (h1 : 48 ≤ c) (h2 : c ≤ 57) : isDigit c = true := by
  simp only [isDigit, Bool.and_eq_true, decide_eq_true_iff]
  omega



theorem newTail_shape {t : Nat} :
    newTail t = 10 :: (sxPat ++ (10 :: (asciiDigits t ++ [10, 37, 37, 69, 79, 70, 10]))) := rfl

theorem sx_occurrence_in_repair {A : List Nat} {t : Nat} :
    subAt sxPat (A ++ newTail t) (A.length + 1) = true := by
  rw [subAt_iff, newTail_shape]
  have hdrop : (A ++ 10 :: (sxPat ++ (10 :: (asciiDigits t ++ [10, 37, 37, 69, 79, 70, 10])))).drop
      (A.length + 1) = sxPat ++ (10 :: (asciiDigits t ++ [10, 37, 37, 69, 79, 70, 10])) := by
    rw [List.drop_append 1]
    rfl
  rw [hdrop, List.take_left]

theorem no_sx_after_repair {A : List Nat} {t : Nat} :
    ∀ j, A.length + 2 ≤ j → subAt sxPat (A ++ newTail t) j = false := by
  intro j hj
  rw [Bool.eq_false_iff]
  intro hc
  have hhead : (A ++ newTail t).getD j 0 = 115 := subAt_head hc
  have hassoc : A ++ newTail t =
      (A ++ [10]) ++ (115 :: ([116, 97, 114, 116, 120, 114, 101, 102] ++
        (10 :: (asciiDigits t ++ [10, 37, 37, 69, 79, 70, 10])))) := by
    rw [newTail_shape]
    simp [sxPat]
  have hge : (A ++ [10]).length ≤ j := by simp; omega
  have hj' : (A ++ newTail t)[j]? =
      (115 :: ([116, 97, 114, 116, 120, 114, 101, 102] ++
        (10 :: (asciiDigits t ++ [10, 37, 37, 69, 79, 70, 10]))))[j - (A ++ [10]).length]? := by
    rw [hassoc, List.getElem?_append_right hge]
  obtain ⟨k', hk'⟩ : ∃ k', j - (A ++ [10]).length = k' + 1 := by
    refine ⟨j - (A ++ [10]).length - 1, ?_⟩
    simp at hge ⊢
    omega
  rw [hk', List.getElem?_cons_succ] at hj'
  have hT : ∀ x ∈ ([116, 97, 114, 116, 120, 114, 101, 102] ++
      (10 :: (asciiDigits t ++ [10, 37, 37, 69, 79, 70, 10]))), x ≠ 115 := by
    intro x hx
    rcases List.mem_append.mp hx with h | h
    · fin_cases h <;> omega
    · rcases List.mem_cons.mp h with h' | h'
      · omega
      · rcases List.mem_append.mp h' with h'' | h''
        · have := asciiDigits_mem x h''
          omega
        · fin_cases h'' <;> omega
  rw [List.getD_eq_getElem?_getD, hj'] at hhead
  cases hcase : ([116, 97, 114, 116, 120, 114, 101, 102] ++
      (10 :: (asciiDigits t ++ [10, 37, 37, 69, 79, 70, 10])))[k']? with
  | none => rw [hcase] at hhead; simp at hhead
  | some x =>
    rw [hcase] at hhead
    simp at hhead
    exact hT x (List.getElem?_mem hcase) hhead

theorem rfind_after_repair {A : List Nat} {t : Nat} :
    findLastStartxref (A ++ newTail t) = some (A.length + 1) := by
  obtain ⟨k, hk⟩ := rfindSub_isSome (by decide) (sx_occurrence_in_repair (A := A) (t := t))
  obtain ⟨hocc, hmax⟩ := rfindSub_some (by decide) hk
  have h1 : A.length + 1 ≤ k := hmax _ sx_occurrence_in_repair
  have h2 : k ≤ A.length + 1 := by
    by_contra hgt
    have := no_sx_after_repair (A := A) (t := t) k (by omega)
    rw [this] at hocc
    exact absurd hocc (by simp)
  have : k = A.length + 1 := by omega
  rw [this] at hk
  exact hk



theorem parse_after_repair {A : List Nat} {t : Nat}
    (hDlen : (asciiDigits t).length ≤ 80) :
    parseStartxrefValue (A ++ newTail t) (A.length + 1) = some t := by
  obtain ⟨d0, D', hD0⟩ : ∃ d0 D', asciiDigits t = d0 :: D' := by
    cases hcase : asciiDigits t with
    | nil => exact absurd hcase asciiDigits_ne_nil
    | cons x xs => exact ⟨x, xs, rfl⟩
  have hd0 : 48 ≤ d0 ∧ d0 ≤ 57 := asciiDigits_mem d0 (by rw [hD0]; simp)
  have hdrop : (A ++ newTail t).drop (A.length + 1) =
      sxPat ++ (10 :: (asciiDigits t ++ [10, 37, 37, 69, 79, 70, 10])) := by
    rw [newTail_shape, List.drop_append 1]
    rfl
  have hlen1 : (sxPat ++ (10 :: (asciiDigits t ++ [10, 37, 37, 69, 79, 70, 10]))).length =
      17 + (asciiDigits t).length := by
    simp [sxPat]
    omega
  have hw : ((A ++ newTail t).drop (A.length + 1)).take 100 =
      sxPat ++ (10 :: (asciiDigits t ++ [10, 37, 37, 69, 79, 70, 10])) := by
    rw [hdrop]
    exact List.take_of_length_le (by omega)
  have hassoc : sxPat ++ (10 :: (asciiDigits t ++ [10, 37, 37, 69, 79, 70, 10])) =
      (sxPat ++ [10]) ++ (asciiDigits t ++ [10, 37, 37, 69, 79, 70, 10]) := by
    simp
  have hsub0 : subAt sxPat (sxPat ++ (10 :: (asciiDigits t ++ [10, 37, 37, 69, 79, 70, 10]))) 0
      = true := by
    rw [subAt_iff, List.drop_zero, List.take_left]
  have hdrop9 : (sxPat ++ (10 :: (asciiDigits t ++ [10, 37, 37, 69, 79, 70, 10]))).drop 9 =
      10 :: (asciiDigits t ++ [10, 37, 37, 69, 79, 70, 10]) := by
    rw [show (9 : Nat) = sxPat.length from rfl]
    exact List.drop_left _ _
  have hrun : ((sxPat ++ (10 :: (asciiDigits t ++ [10, 37, 37, 69, 79, 70, 10]))).drop
      9).takeWhile isSpaceB = [10] := by
    rw [hdrop9, List.takeWhile_cons, if_pos (by decide), hD0, List.cons_append,
      takeWhile_cons_false (isSpaceB_false_of_digit hd0.1)]
  have hget9 : (sxPat ++ (10 :: (asciiDigits t ++ [10, 37, 37, 69, 79, 70, 10]))).getD 9 0
      = 10 := by
    rw [List.getD_eq_getElem?_getD,
      List.getElem?_append_right (by decide : sxPat.length ≤ 9)]
    simp [sxPat]
  have hget10 : (sxPat ++ (10 :: (asciiDigits t ++ [10, 37, 37, 69, 79, 70, 10]))).getD 10 0
      = d0 := by
    rw [List.getD_eq_getElem?_getD, hassoc,
      List.getElem?_append_right (by simp [sxPat] : (sxPat ++ [10]).length ≤ 10)]
    rw [hD0]
    simp [sxPat]
  have hdrop10 : (sxPat ++ (10 :: (asciiDigits t ++ [10, 37, 37, 69, 79, 70, 10]))).drop 10 =
      asciiDigits t ++ [10, 37, 37, 69, 79, 70, 10] := by
    rw [hassoc, show (10 : Nat) = (sxPat ++ [10]).length by simp [sxPat]]
    exact List.drop_left _ _
  have hvalue : ((sxPat ++ (10 :: (asciiDigits t ++ [10, 37, 37, 69, 79, 70, 10]))).drop
      10).takeWhile isDigit = asciiDigits t := by
    rw [hdrop10,
      takeWhile_append_all (fun x hx =>
        isDigit_true_of (asciiDigits_mem x hx).1 (asciiDigits_mem x hx).2),
      takeWhile_cons_false (by decide)]
    simp
  have hlen_gt : 10 < (sxPat ++ (10 :: (asciiDigits t ++ [10, 37, 37, 69, 79, 70, 10]))).length := by
    rw [hlen1]
    omega
  have hdigit0 : isDigit d0 = true := isDigit_true_of hd0.1 hd0.2
  have hmatch : sxMatchAt (sxPat ++ (10 :: (asciiDigits t ++ [10, 37, 37, 69, 79, 70, 10]))) 0
      = some t := by
    unfold sxMatchAt
    rw [if_pos hsub0]
    simp only [Nat.zero_add, show sxPat.length = 9 from rfl]
    rw [hrun, show ([10] : List Nat).length = 1 from rfl,
      show (9 : Nat) + 1 = 10 from rfl, show (10 : Nat) - 1 = 9 from rfl,
      hget9, hget10, hdigit0, decide_eq_true hlen_gt]
    rw [if_pos (by decide)]
    rw [hvalue, natOfDigits_asciiDigits]
  have hfw : findFirstAux
      (fun p => (sxMatchAt (sxPat ++ (10 :: (asciiDigits t ++ [10, 37, 37, 69, 79, 70, 10]))) p).isSome)
      0 ((sxPat ++ (10 :: (asciiDigits t ++ [10, 37, 37, 69, 79, 70, 10]))).length + 1) = some 0 :=
    findFirstAux_start (by rw [hmatch]; rfl)
  unfold parseStartxrefValue
  simp only [hw, hfw, hmatch]



/-! ## Claim C2 -/

/-- C2: when a buffer's last `startxref` parses to an offset that fails
both the table and the stream validation, repair succeeds and the repaired
buffer's new `startxref` integer — located and parsed exactly as the code
does — equals the byte offset of the last literal `xref` occurrence in the
original buffer (which is also why the plain `xref` target always beats
the `/Type /XRef` stream target).  The size bound keeps the offset's
decimal rendering inside the 100-byte parse window, mirroring the
`b[start:start+100]` slice of the source. -/
theorem repair_targets_last_xref (b : List Nat) (i v : Nat)
    (hsx : findLastStartxref b = some i)
    (hparse : parseStartxrefValue b i = some v)
    (htab : looksLikeXrefTableAt b v = false)
    (hstream : looksLikeXrefStreamAt b v = false)
    (hxref : ∃ j, subAt xrefPat b j = true)
    (hsize : b.length < 10 ^ 80) :
    ∃ r t, repairStartxref b = some r ∧
      subAt xrefPat b t = true ∧ (∀ j, subAt xrefPat b j = true → j ≤ t) ∧
      findLastStartxref r = some (i + 1) ∧
      parseStartxrefValue r (i + 1) = some t := by
  obtain ⟨t, hxt, hxmax, hrep⟩ := repairStartxref_eq hsx
  have hocc : subAt sxPat b i = true := (rfindSub_some (by decide) hsx).1
  have hi9 : i + 9 ≤ b.length := by
    have h := subAt_le (by decide) hocc
    rwa [show sxPat.length = 9 from rfl] at h
  have hAlen : (b.take i).length = i := by
    simp only [List.length_take]
    omega
  have ht4 : t + 4 ≤ b.length := by
    have h := subAt_le (by decide) hxt
    rwa [show xrefPat.length = 4 from rfl] at h
  have htlt : t < 10 ^ 80 := lt_of_le_of_lt (by omega) hsize
  have hDlen : (asciiDigits t).length ≤ 80 := asciiDigits_length (by norm_num) htlt
  refine ⟨b.take i ++ newTail t, t, hrep, hxt, hxmax, ?_, ?_⟩
  · have h := rfind_after_repair (A := b.take i) (t := t)
    rwa [hAlen] at h
  · have h := parse_after_repair (A := b.take i) (t := t) hDlen
    rwa [hAlen] at h

/-- C2 witness: the buffer `b"startxref\n99\n"`, whose parsed offset 99
lies past the end of the buffer, so validation fails; the last literal
`xref` is the substring inside `startxref` at offset 5. -/
theorem repair_targets_last_xref_witness :
    ∃ r t, repairStartxref [115, 116, 97, 114, 116, 120, 114, 101, 102, 10, 57, 57, 10]
        = some r ∧
      subAt xrefPat [115, 116, 97, 114, 116, 120, 114, 101, 102, 10, 57, 57, 10] t = true ∧
      (∀ j, subAt xrefPat [115, 116, 97, 114, 116, 120, 114, 101, 102, 10, 57, 57, 10] j = true
        → j ≤ t) ∧
      findLastStartxref r = some 1 ∧
      parseStartxrefValue r 1 = some t :=
  repair_targets_last_xref [115, 116, 97, 114, 116, 120, 114, 101, 102, 10, 57, 57, 10] 0 99
    (by decide) (by decide) (by decide) (by decide) ⟨5, by decide⟩ (by decide)

/-! ## Claim C8 -/

/-- C8 (amended): whenever repair succeeds on a buffer with its last
`startxref` at index `i`, the output is exactly `b[0:i]` followed by the
trailer bytes `"\nstartxref\n<t>\n%%EOF\n"` — with a LEADING newline, one
byte more than the claim's `"startxref\n<t>\n%%EOF\n"` — where `t` is the
offset of the last literal `xref` occurrence in `b`. -/
theorem repair_frame (b : List Nat) (i : Nat) (hsx : findLastStartxref b = some i) :
    ∃ t, subAt xrefPat b t = true ∧ (∀ j, subAt xrefPat b j = true → j ≤ t) ∧
      repairStartxref b = some (b.take i ++
        (10 :: (sxPat ++ (10 :: (asciiDigits t ++ [10, 37, 37, 69, 79, 70, 10]))))) := by
  obtain ⟨t, h1, h2, h3⟩ := repairStartxref_eq hsx
  exact ⟨t, h1, h2, by rw [h3, newTail_shape]⟩

/-- C8 witness: the frame property at the buffer `b"Astartxref"`. -/
theorem repair_frame_witness :
    ∃ t, subAt xrefPat [65, 115, 116, 97, 114, 116, 120, 114, 101, 102] t = true ∧
      (∀ j, subAt xrefPat [65, 115, 116, 97, 114, 116, 120, 114, 101, 102] j = true → j ≤ t) ∧
      repairStartxref [65, 115, 116, 97, 114, 116, 120, 114, 101, 102] =
        some ([65, 115, 116, 97, 114, 116, 120, 114, 101, 102].take 1 ++
          (10 :: (sxPat ++ (10 :: (asciiDigits t ++ [10, 37, 37, 69, 79, 70, 10]))))) :=
  repair_frame [65, 115, 116, 97, 114, 116, 120, 114, 101, 102] 1 (by decide)

/-- C8 counterexample: on the buffer `b"startxref"` repair succeeds with
target offset 5, but the repaired buffer carries a leading `\n` before
`startxref`, so it is not `b[0:i]` followed by exactly
`"startxref\n5\n%%EOF\n"`. -/
theorem repair_trailer_cex :
    repairStartxref [115, 116, 97, 114, 116, 120, 114, 101, 102] =
      some [10, 115, 116, 97, 114, 116, 120, 114, 101, 102, 10, 53, 10, 37, 37, 69, 79, 70, 10] ∧
    [10, 115, 116, 97, 114, 116, 120, 114, 101, 102, 10, 53, 10, 37, 37, 69, 79, 70, 10] ≠
      [115, 116, 97, 114, 116, 120, 114, 101, 102, 10, 53, 10, 37, 37, 69, 79, 70, 10] := by
  decide

/-- C9 counterexample: the buffer `b"startxref"` has an unparseable
offset, yet the validation-plus-repair stage produces a repaired artifact
instead of stopping as unrepairable. -/
theorem illegible_offset_cex :
    xrefStage [115, 116, 97, 114, 116, 120, 114, 101, 102] =
      some [10, 115, 116, 97, 114, 116, 120, 114, 101, 102, 10, 53, 10, 37, 37, 69, 79, 70, 10] ∧
    parseStartxrefValue [115, 116, 97, 114, 116, 120, 114, 101, 102] 0 = none := by
  decide

/-- C9 witness: the amended statement at the buffer `b"Bstartxref"`. -/
theorem xref_illegible_still_repairs_witness :
    ∃ r, xrefStage [66, 115, 116, 97, 114, 116, 120, 114, 101, 102] = some r :=
  xref_illegible_still_repairs [66, 115, 116, 97, 114, 116, 120, 114, 101, 102] 1
    (by decide) (by decide)


end Converter
